import Mathlib

/-!
Verification of the crontab-parser repository: a shallow embedding of
`crontab.py` (the `Range`/`Set` next-value model and the `Job` occurrence
engine) and `parser.py` (the field parser), with theorems checking the
specification's claims against the embedded code.

Python integers are modelled as `Int`; Python booleans used in arithmetic
(`current + carry`) are converted with `b2i`.  Python exceptions are
modelled with `Except PyErr`.  `math.ceil(a/b)` on integer arguments is
modelled as exact integer ceiling division (`ceilDiv`).
-/

/-- Decidable equality on `Except`, so concrete runs of the embedded code can
be checked with `decide`. -/
instance {ε α : Type} [DecidableEq ε] [DecidableEq α] : DecidableEq (Except ε α) := fun a b =>
  match a, b with
  | .ok x, .ok y =>
    if h : x = y then isTrue (by rw [h]) else isFalse (by simp [h])
  | .error e, .error f =>
    if h : e = f then isTrue (by rw [h]) else isFalse (by simp [h])
  | .ok _, .error _ => isFalse (by simp)
  | .error _, .ok _ => isFalse (by simp)

namespace Crontab

/-- Python booleans are ints in arithmetic contexts: `True` is 1, `False` is 0. -/
def b2i (b : Bool) : Int := if b then 1 else 0

/-- Exact integer ceiling division, modelling `math.ceil(a / b)` on integers:
`⌈a / b⌉ = -⌊-a / b⌋`, with `Int.fdiv` the flooring division. -/
def ceilDiv (a b : Int) : Int := -((-a).fdiv b)

/-- The exceptions the embedded code can raise. -/
inductive PyErr where
  | cronSyntax (msg : String) (text : String)
  | valueError (msg : String)
  | indexError
  | zeroDivisionError
  | overflowError
deriving Repr, DecidableEq

/-- `crontab.Range`: a range of times plus a step value. -/
structure Range where
  min : Int
  max : Int
  step : Int
deriving Repr, DecidableEq

/-- `crontab.Range.next_value(current, carry)`.  The Python body first
computes `distance = ceil((current + carry - self.min)/self.step)` (raising
`ZeroDivisionError` when `step == 0`), `next = self.min + self.step*distance`,
then branches on `current+carry <= self.min` and `next > self.max`. -/
def Range.next_value (r : Range) (current : Int) (carry : Bool) : Except PyErr (Bool × Int) :=
  if r.step = 0 then .error .zeroDivisionError
  else
    let distance := ceilDiv (current + b2i carry - r.min) r.step
    let next := r.min + r.step * distance
    if current + b2i carry ≤ r.min then .ok (false, r.min)
    else if next > r.max then .ok (true, r.min)
    else .ok (false, next)

/-- The list of values produced by Python's `range(r.min, r.max+1, r.step)`
(for `step ≠ 0`): `⌈((max+1) - min) / step⌉` values counted from `min` in
increments of `step`. -/
def Range.gridList (r : Range) : List Int :=
  (List.range (ceilDiv (r.max + 1 - r.min) r.step).toNat).map
    (fun (k : Nat) => r.min + r.step * (k : Int))

/-- `crontab.Range.validate(current, carry)`: the brute-force linear scan used
as the test oracle for `next_value`.  Scans `range(min, max+1, step)` for the
first value `≥ current + carry` (Python's `range` raises `ValueError` on a
zero step). -/
def Range.validate (r : Range) (current : Int) (carry : Bool) : Except PyErr (Bool × Int) :=
  if current + b2i carry < r.min then .ok (false, r.min)
  else if r.step = 0 then .error (.valueError "range() arg 3 must not be zero")
  else
    match r.gridList.find? (fun i => decide (i ≥ current + b2i carry)) with
    | some i => .ok (false, i)
    | none => .ok (true, r.min)

/-- Python's `<` on `(bool, int)` tuples: `False < True`, lexicographic with
the carry component first. -/
def pairLt (a b : Bool × Int) : Bool :=
  (!a.1 && b.1) || (a.1 == b.1 && a.2 < b.2)

/-- One step of Python's `min`: keep the current best unless the new
element is strictly smaller. -/
def pairMin (best x : Bool × Int) : Bool × Int :=
  if pairLt x best then x else best

/-- `crontab.Set`: a set of ranges in one field of one job. -/
structure Set where
  ranges : List Range
deriving Repr, DecidableEq

/-- `crontab.Set.next_value(current, carry)`:
`min(r.next_value(current, carry) for r in self.ranges)`.  Python's `min`
evaluates every element (propagating exceptions) and raises `ValueError` on
an empty sequence; tuples compare lexicographically. -/
def Set.next_value (s : Set) (current : Int) (carry : Bool) : Except PyErr (Bool × Int) := do
  let vals ← s.ranges.mapM (fun r => r.next_value current carry)
  match vals with
  | [] => .error (.valueError "min() arg is an empty sequence")
  | v :: rest => .ok (rest.foldl pairMin v)

/-- A `datetime.datetime` value: year, month, day, hour, minute, second,
microsecond (naive, no timezone). -/
structure DateTime where
  year : Int
  month : Int
  day : Int
  hour : Int
  minute : Int
  second : Int
  microsecond : Int
deriving Repr, DecidableEq

/-- Gregorian leap-year rule, as in Python's `calendar.isleap`. -/
def isLeap (y : Int) : Bool := y % 4 == 0 && (y % 100 != 0 || y % 400 == 0)

/-- Number of days in month `m` of year `y` (for `1 ≤ m ≤ 12`). -/
def daysInMonth (y m : Int) : Int :=
  if m = 2 then (if isLeap y then 29 else 28)
  else if m = 4 ∨ m = 6 ∨ m = 9 ∨ m = 11 then 30
  else 31

/-- Python's `datetime` range check on the date components
(`MINYEAR = 1`, `MAXYEAR = 9999`). -/
def dateValid (y m d : Int) : Bool :=
  1 ≤ y && y ≤ 9999 && 1 ≤ m && m ≤ 12 && 1 ≤ d && d ≤ daysInMonth y m

/-- Python's `datetime` range check on the time components. -/
def timeValid (h mi s us : Int) : Bool :=
  0 ≤ h && h ≤ 23 && 0 ≤ mi && mi ≤ 59 && 0 ≤ s && s ≤ 59 && 0 ≤ us && us ≤ 999999

/-- Constructing a `datetime.datetime` (as `replace` does internally):
`none` models the `ValueError` Python raises on out-of-range components. -/
def mkDateTime (y m d h mi s us : Int) : Option DateTime :=
  if dateValid y m d && timeValid h mi s us then some ⟨y, m, d, h, mi, s, us⟩ else none

/-- `date.toordinal()`: days before year `y` in the proleptic Gregorian
calendar. -/
def daysBeforeYear (y : Int) : Int :=
  let p := y - 1
  365 * p + p.fdiv 4 - p.fdiv 100 + p.fdiv 400

/-- Days in year `y` before month `m` (for `1 ≤ m ≤ 12`). -/
def daysBeforeMonth (y m : Int) : Int :=
  (List.range (m - 1).toNat).foldl (fun acc k => acc + daysInMonth y ((k : Int) + 1)) 0

/-- `datetime.toordinal()`: the proleptic Gregorian ordinal, with
0001-01-01 having ordinal 1. -/
def DateTime.toOrdinal (dt : DateTime) : Int :=
  daysBeforeYear dt.year + daysBeforeMonth dt.year dt.month + dt.day

/-- `datetime.isoweekday()`: Monday is 1 … Sunday is 7 (0001-01-01 was a
Monday). -/
def DateTime.isoweekday (dt : DateTime) : Int :=
  (dt.toOrdinal - 1) % 7 + 1

/-- Adding one day to a valid datetime, carrying through month and year;
`OverflowError` past 9999-12-31 as in Python. -/
def addDaysNat : DateTime → Nat → Except PyErr DateTime
  | dt, 0 => .ok dt
  | dt, n + 1 =>
    if dt.day + 1 ≤ daysInMonth dt.year dt.month then
      addDaysNat {dt with day := dt.day + 1} n
    else if dt.month < 12 then
      addDaysNat {dt with month := dt.month + 1, day := 1} n
    else if dt.year < 9999 then
      addDaysNat {dt with year := dt.year + 1, month := 1, day := 1} n
    else .error .overflowError

/-- `dt + datetime.timedelta(days=n)` for the nonnegative day counts produced
by `_dows_to_timedelta`. -/
def DateTime.addDays (dt : DateTime) (n : Int) : Except PyErr DateTime :=
  addDaysNat dt n.toNat

/-- Python's `<` on datetimes: lexicographic on
(year, month, day, hour, minute, second, microsecond). -/
def dtLt (a b : DateTime) : Bool :=
  if a.year ≠ b.year then a.year < b.year
  else if a.month ≠ b.month then a.month < b.month
  else if a.day ≠ b.day then a.day < b.day
  else if a.hour ≠ b.hour then a.hour < b.hour
  else if a.minute ≠ b.minute then a.minute < b.minute
  else if a.second ≠ b.second then a.second < b.second
  else a.microsecond < b.microsecond

/-- Python's `min(a, b)` on datetimes: `b` if `b < a` else `a`. -/
def dtMin (a b : DateTime) : DateTime := if dtLt b a then b else a

/-- `crontab._dows_to_timedelta(current, next)`: day delta to realign the
weekday, wrapping a full week forward when `next < current`. -/
def dows_to_timedelta (current next : Int) : Int :=
  next - current + (if next < current then 7 else 0)

/-- `crontab.Job`: five field `Set`s, the command text, and the two
"was this day field restricted" flags that `parser.parse_job` attaches. -/
structure Job where
  mins : Set
  hours : Set
  doms : Set
  months : Set
  dows : Set
  job : String
  dom_specified : Bool
  dow_specified : Bool
deriving Repr, DecidableEq

/-- The closure `find_minute_hour(dt, minute_carry)` inside
`Job.next_value`: advance minute then hour, reset the minute to the field's
first value when the hour wrapped, and rebuild the datetime (the bare
`except` around the `replace` re-raises as the "couldn't find a valid time"
`ValueError`). -/
def Job.find_minute_hour (j : Job) (dt : DateTime) (minute_carry : Bool) :
    Except PyErr (Bool × DateTime) :=
  j.mins.next_value dt.minute minute_carry >>= fun (minute_carry, next_minute) =>
  j.hours.next_value dt.hour minute_carry >>= fun (hour_carry, next_hour) =>
  (if hour_carry then (j.mins.next_value 0 false).map Prod.snd else pure next_minute) >>=
    fun next_minute =>
  match mkDateTime dt.year dt.month dt.day next_hour next_minute dt.second dt.microsecond with
  | some dt2 => .ok (hour_carry, dt2)
  | none => .error (.valueError "Couldn't find a valid time for the cron job")

/-- The `for i in range(100)` retry loop of `find_dom_month_year`, with the
mutated `dom`, `month`, `year` threaded through; when `replace` raises
`ValueError` the loop continues, and exhausting the bound raises the
"couldn't find a valid time" `ValueError`. -/
def Job.find_dom_month_year_loop (j : Job) (dt : DateTime) (hour_carry : Bool) :
    Nat → Int → Int → Int → Except PyErr (Bool × DateTime)
  | 0, _, _, _ => .error (.valueError "Couldn't find a valid time for the cron job")
  | n + 1, dom, month, year =>
    j.doms.next_value dom hour_carry >>= fun (dom_carry, dom) =>
    j.months.next_value month dom_carry >>= fun (month_carry, month) =>
    (if month_carry then j.doms.next_value 0 false else pure (dom_carry, dom)) >>=
      fun (dom_carry, dom) =>
    match mkDateTime (year + b2i month_carry) month dom
        dt.hour dt.minute dt.second dt.microsecond with
    | some dt2 => .ok (dom_carry || month_carry, dt2)
    | none => j.find_dom_month_year_loop dt hour_carry n dom month (year + b2i month_carry)

/-- The closure `find_dom_month_year(dt, hour_carry)` inside
`Job.next_value`. -/
def Job.find_dom_month_year (j : Job) (dt : DateTime) (hour_carry : Bool) :
    Except PyErr (Bool × DateTime) :=
  j.find_dom_month_year_loop dt hour_carry 100 dt.day dt.month dt.year

/-- The closure `find_dow_month_year(dt, hour_carry)` inside
`Job.next_value`. -/
def Job.find_dow_month_year (j : Job) (dt : DateTime) (hour_carry : Bool) :
    Except PyErr (Bool × DateTime) :=
  j.dows.next_value (dt.isoweekday % 7) hour_carry >>= fun (dow_carry, dow) =>
  j.months.next_value dt.month false >>= fun (_, next_month) =>
  dt.addDays (dows_to_timedelta (dt.isoweekday % 7) dow) >>= fun dtPlus =>
  if dtPlus.month = dt.month ∧ next_month = dt.month then
    .ok (dow_carry, dtPlus)
  else
    j.months.next_value dt.month true >>= fun (month_carry, next_month) =>
    (match mkDateTime (dt.year + b2i month_carry) next_month 1
        dt.hour dt.minute dt.second dt.microsecond with
    | some d => Except.ok d
    | none => Except.error (.valueError "day is out of range for month")) >>= fun dt2 =>
    j.dows.next_value (dt2.isoweekday % 7) false >>= fun (_, dow) =>
    dt2.addDays (dows_to_timedelta (dt2.isoweekday % 7) dow) >>= fun dtFinal =>
    .ok (true, dtFinal)

/-- `crontab.Job.next_value(dt)`: truncate seconds, advance minute/hour,
run the day-of-month and day-of-week paths (resetting to midnight via
`find_minute_hour` when a path carried into a later day), and dispatch on
the `dom_specified` / `dow_specified` flags. -/
def Job.next_value (j : Job) (dt0 : DateTime) : Except PyErr DateTime :=
  j.find_minute_hour {dt0 with second := 0} true >>= fun (hour_carry, time) =>
  j.find_dom_month_year time hour_carry >>= fun (domHigh, domD) =>
  j.find_dow_month_year time hour_carry >>= fun (dowHigh, dowD) =>
  (if domHigh then (j.find_minute_hour {domD with hour := 0, minute := 0} false).map Prod.snd
   else pure domD) >>= fun dom_dt =>
  (if dowHigh then (j.find_minute_hour {dowD with hour := 0, minute := 0} false).map Prod.snd
   else pure dowD) >>= fun dow_dt =>
  if j.dow_specified && j.dom_specified then .ok (dtMin dom_dt dow_dt)
  else if j.dow_specified && !j.dom_specified then .ok dow_dt
  else .ok dom_dt

/-- The day-of-month path timestamp of `Job.next_value` in isolation:
the result of Step B followed by the midnight minute/hour reset. -/
def Job.domPath (j : Job) (dt0 : DateTime) : Except PyErr DateTime :=
  j.find_minute_hour {dt0 with second := 0} true >>= fun (hour_carry, time) =>
  j.find_dom_month_year time hour_carry >>= fun (domHigh, domD) =>
  if domHigh then (j.find_minute_hour {domD with hour := 0, minute := 0} false).map Prod.snd
  else pure domD

/-- The day-of-week path timestamp of `Job.next_value` in isolation:
the result of Step C followed by the midnight minute/hour reset. -/
def Job.dowPath (j : Job) (dt0 : DateTime) : Except PyErr DateTime :=
  j.find_minute_hour {dt0 with second := 0} true >>= fun (hour_carry, time) =>
  j.find_dow_month_year time hour_carry >>= fun (dowHigh, dowD) =>
  if dowHigh then (j.find_minute_hour {dowD with hour := 0, minute := 0} false).map Prod.snd
  else pure dowD

/-! ### The field parser (`parser.py`)

Python string operations are modelled explicitly over `List Char` so that
concrete runs reduce inside the kernel. -/

/-- ASCII whitespace, as recognised by Python's `str.split()`. -/
def isPySpace (c : Char) : Bool :=
  c == ' ' || c == '\t' || c == '\n' || c == '\r' || c == '\x0b' || c == '\x0c'

/-- Take the longest non-whitespace prefix and return it with the rest. -/
def takeWord : List Char → List Char × List Char
  | [] => ([], [])
  | c :: cs =>
    if isPySpace c then ([], c :: cs)
    else
      let (w, r) := takeWord cs
      (c :: w, r)

/-- Python's `str.split(maxsplit=m)`: skip runs of whitespace, cut off at
most `m` words, and keep the remainder (with its internal spacing) as the
final element when it is nonempty after stripping its leading whitespace. -/
def pySplitWs : Nat → List Char → List (List Char)
  | m, l =>
    match l.dropWhile isPySpace, m with
    | [], _ => []
    | l', 0 => [l']
    | l', m' + 1 =>
      let (w, r) := takeWord l'
      w :: pySplitWs m' r

/-- Python's `str.split(sep)` for a one-character separator: empty parts are
kept and the result is never empty. -/
def splitOnChar (sep : Char) : List Char → List (List Char)
  | [] => [[]]
  | c :: rest =>
    if c = sep then [] :: splitOnChar sep rest
    else
      match splitOnChar sep rest with
      | w :: ws => (c :: w) :: ws
      | [] => [[c]]

/-- Python's `str.replace("*", repl)`: replace every occurrence. -/
def replaceStar (repl : List Char) : List Char → List Char
  | [] => []
  | c :: rest =>
    if c = '*' then repl ++ replaceStar repl rest else c :: replaceStar repl rest

/-- Digit run of a Python integer literal: digits with single underscores
allowed only between digits. -/
def pyDigitsAux : Nat → List Char → Option Nat
  | acc, [] => some acc
  | _, ['_'] => none
  | acc, '_' :: c :: rest =>
    if c.isDigit then pyDigitsAux (acc * 10 + (c.toNat - 48)) rest else none
  | acc, c :: rest =>
    if c.isDigit then pyDigitsAux (acc * 10 + (c.toNat - 48)) rest else none

/-- Parse a nonempty digit run (no leading underscore). -/
def pyDigits : List Char → Option Nat
  | [] => none
  | c :: rest => if c.isDigit then pyDigitsAux (c.toNat - 48) rest else none

/-- Python's `int(s)`: strip surrounding whitespace, allow one optional
sign, then a digit run; `none` models the `ValueError` on anything else. -/
def pyInt (s : List Char) : Option Int :=
  let core := ((s.dropWhile isPySpace).reverse.dropWhile isPySpace).reverse
  match core with
  | '-' :: rest => (pyDigits rest).map (fun n => -(n : Int))
  | '+' :: rest => (pyDigits rest).map (fun n => (n : Int))
  | rest => (pyDigits rest).map (fun n => (n : Int))

/-- Render a nonnegative integer as decimal digits (used for the textual
`*` expansion `"{}-{}".format(min, max)`). -/
def intToChars (n : Int) : List Char := (toString n).toList

/-- `parser.parse_range(range_step, star_range)`.  `*` is first expanded
textually to `"min-max"`; a trailing `/step` is parsed with `int` — note the
code's `except IndexError or ValueError` only catches `IndexError`, so a
`ValueError` from a non-numeric step escapes, and only a *negative* step is
rejected; then the `lo-hi` base is parsed, `ValueError`s there becoming
`CronSyntaxError("Invalid Field")`. -/
def parse_range (range_step : String) (star_range : Int × Int) : Except PyErr Range := do
  let errorText := range_step
  let expanded := replaceStar
    (intToChars star_range.1 ++ ['-'] ++ intToChars star_range.2) range_step.toList
  let parts := splitOnChar '/' expanded
  let step ←
    if parts.length = 1 then Except.ok 1
    else if parts.length = 2 then
      match pyInt (parts.getD 1 []) with
      | some k =>
        if k < 0 then Except.error (.cronSyntax "Invalid Field" errorText)
        else Except.ok k
      | none => Except.error (.valueError "invalid literal for int() with base 10")
    else Except.error (.cronSyntax "Invalid Field" errorText)
  let raw_range := splitOnChar '-' (parts.getD 0 [])
  match raw_range with
  | [a] =>
    match pyInt a with
    | some v => Except.ok (Range.mk v v step)
    | none => Except.error (.cronSyntax "Invalid Field" errorText)
  | [a, b] =>
    match pyInt a, pyInt b with
    | some v, some w =>
      if v > w then Except.error (.cronSyntax "Invalid Field" errorText)
      else Except.ok (Range.mk v w step)
    | _, _ => Except.error (.cronSyntax "Invalid Field" errorText)
  | _ => Except.error (.cronSyntax "Invalid Field" errorText)

/-- `parser.parse_set(field, star_range)`: parse each comma-separated
element. -/
def parse_set (field : String) (star_range : Int × Int) : Except PyErr Set := do
  let ranges ← (splitOnChar ',' field.toList).mapM
    (fun r => parse_range (String.mk r) star_range)
  Except.ok (Set.mk ranges)

/-- Modelled from the spec: `crontab.STAR_RANGES`, referenced by
`parser.parse_job` but absent from `src/crontab.py` (earlier revisions and
`src/crontab.py`'s `Bounds` table fix its value): the inclusive bounds of
the five fields, minute 0–59, hour 0–23, day-of-month 1–31, month 1–12,
day-of-week 1–7. -/
def STAR_RANGES : List (Int × Int) := [(0, 59), (0, 23), (1, 31), (1, 12), (1, 7)]

/-- The whitespace-split of a job line with `maxsplit=5`, as `String`s. -/
def pyFields (raw_line : String) : List String :=
  (pySplitWs 5 raw_line.toList).map (fun w => String.mk w)

/-- `parser.parse_job(raw_line)`: split into at most five fields plus the
command, build the five `Set`s, read the command at `line[5]` (an uncaught
`IndexError` when it is missing), and attach the `dom_specified` /
`dow_specified` flags; only a `ValueError` inside the `try` is converted to
`CronSyntaxError("Invalid job")`. -/
def parse_job (raw_line : String) : Except PyErr Job :=
  let line := pyFields raw_line
  let attempt : Except PyErr Job := do
    let times ← (line.zip STAR_RANGES).mapM (fun fr => parse_set fr.1 fr.2)
    let cmd ←
      match line.get? 5 with
      | some c => Except.ok c
      | none => Except.error .indexError
    let j ←
      match times with
      | [mins, hours, doms, months, dows] =>
        Except.ok (Job.mk mins hours doms months dows cmd false false)
      | _ => Except.error (.valueError "not enough values to unpack")
    Except.ok {j with dom_specified := line.getD 2 "" ≠ "*",
                      dow_specified := line.getD 4 "" ≠ "*"}
  match attempt with
  | .ok j => .ok j
  | .error (.valueError _) => .error (.cronSyntax "Invalid job" raw_line)
  | .error e => .error e

/-! ### Specification-side definitions -/

/-- A value lies on the arithmetic grid `{min, min+step, min+2·step, …}` of a
`Range`. -/
def Range.isGrid (r : Range) (v : Int) : Prop :=
  ∃ k : Nat, v = r.min + r.step * (k : Int)

/-- `g` is the smallest grid point of `r` that is `≥ x`. -/
def Range.isLeastGridGE (r : Range) (x g : Int) : Prop :=
  r.isGrid g ∧ x ≤ g ∧ ∀ v, r.isGrid v → x ≤ v → g ≤ v

/-- The specification's ordering on `(carry, value)` pairs: lexicographic
with the carry component first (`no-carry` before `carry`), then the value. -/
def carryLexLe (a b : Bool × Int) : Prop :=
  (a.1 = false ∧ b.1 = true) ∨ (a.1 = b.1 ∧ a.2 ≤ b.2)

/-- The job parsed from `"* * * * * true"`. -/
def jStar : Job :=
  ⟨⟨[⟨0, 59, 1⟩]⟩, ⟨[⟨0, 23, 1⟩]⟩, ⟨[⟨1, 31, 1⟩]⟩, ⟨[⟨1, 12, 1⟩]⟩, ⟨[⟨1, 7, 1⟩]⟩,
    "true", false, false⟩

/-- The job parsed from `"* * 29 2 * true"` (every Feb 29). -/
def jFeb : Job :=
  ⟨⟨[⟨0, 59, 1⟩]⟩, ⟨[⟨0, 23, 1⟩]⟩, ⟨[⟨29, 29, 1⟩]⟩, ⟨[⟨2, 2, 1⟩]⟩, ⟨[⟨1, 7, 1⟩]⟩,
    "true", true, false⟩

/-- The job parsed from `"* * 31 2 * true"` (Feb 31: never satisfiable). -/
def jFeb31 : Job :=
  ⟨⟨[⟨0, 59, 1⟩]⟩, ⟨[⟨0, 23, 1⟩]⟩, ⟨[⟨31, 31, 1⟩]⟩, ⟨[⟨2, 2, 1⟩]⟩, ⟨[⟨1, 7, 1⟩]⟩,
    "true", true, false⟩

/-- The job parsed from `"*/0 * * * * true"` (zero minute step). -/
def jZero : Job :=
  ⟨⟨[⟨0, 59, 0⟩]⟩, ⟨[⟨0, 23, 1⟩]⟩, ⟨[⟨1, 31, 1⟩]⟩, ⟨[⟨1, 12, 1⟩]⟩, ⟨[⟨1, 7, 1⟩]⟩,
    "true", false, false⟩

/-- The job parsed from `"* * 15 * 3 true"` (both day fields restricted). -/
def jBoth : Job :=
  ⟨⟨[⟨0, 59, 1⟩]⟩, ⟨[⟨0, 23, 1⟩]⟩, ⟨[⟨15, 15, 1⟩]⟩, ⟨[⟨1, 12, 1⟩]⟩, ⟨[⟨3, 3, 1⟩]⟩,
    "true", true, true⟩

/-- The five `Set`s built from the five `*` fields. -/
def starSets : List Set :=
  [⟨[⟨0, 59, 1⟩]⟩, ⟨[⟨0, 23, 1⟩]⟩, ⟨[⟨1, 31, 1⟩]⟩, ⟨[⟨1, 12, 1⟩]⟩, ⟨[⟨1, 7, 1⟩]⟩]

/-! ### Ceiling-division arithmetic -/

theorem ceilDiv_le_iff {a b k : Int} (hb : 0 < b) : ceilDiv a b ≤ k ↔ a ≤ b * k := by
  unfold ceilDiv
  rw [Int.fdiv_eq_ediv _ hb.le, neg_le, Int.le_ediv_iff_mul_le hb, neg_mul,
    neg_le_neg_iff, mul_comm]

theorem le_mul_ceilDiv {a b : Int} (hb : 0 < b) : a ≤ b * ceilDiv a b :=
  (ceilDiv_le_iff hb).1 le_rfl

theorem ceilDiv_le {a b k : Int} (hb : 0 < b) (h : a ≤ b * k) : ceilDiv a b ≤ k :=
  (ceilDiv_le_iff hb).2 h

theorem ceilDiv_pos {a b : Int} (hb : 0 < b) (ha : 0 < a) : 1 ≤ ceilDiv a b := by
  by_contra hcon
  have h0 : ceilDiv a b ≤ 0 := by omega
  have := (ceilDiv_le_iff hb).1 h0
  simp only [mul_zero] at this
  omega

theorem ceilDiv_zero_left (b : Int) : ceilDiv 0 b = 0 := by
  unfold ceilDiv
  rw [neg_zero, Int.zero_fdiv, neg_zero]

/-! ### The closed form computes the least grid point (C1 groundwork) -/

theorem least_grid (r : Range) (hs : 1 ≤ r.step) {c : Int} (hc : r.min < c) :
    r.isLeastGridGE c (r.min + r.step * ceilDiv (c - r.min) r.step) := by
  have hb : (0 : Int) < r.step := by omega
  have hd1 : 1 ≤ ceilDiv (c - r.min) r.step := ceilDiv_pos hb (by omega)
  refine ⟨⟨(ceilDiv (c - r.min) r.step).toNat, ?_⟩, ?_, ?_⟩
  · rw [Int.toNat_of_nonneg (by omega)]
  · have := le_mul_ceilDiv hb (a := c - r.min)
    omega
  · rintro v ⟨k, rfl⟩ hv
    have hk : ceilDiv (c - r.min) r.step ≤ (k : Int) := ceilDiv_le hb (by omega)
    have := mul_le_mul_of_nonneg_left hk hb.le
    omega

/-- C1: for a `Range` with `min ≤ max` and `step ≥ 1` and any integer
`current` and carry, `Range.next_value` follows the specification's
three-case rule — `(no-carry, min)` when `current + carry ≤ min` (with `≤`
at the exact boundary), `(carry, min)` when the smallest grid point
`≥ current + carry` exceeds `max`, and `(no-carry, that grid point)`
otherwise. -/
theorem range_next_value_three_cases (r : Range) (hs : 1 ≤ r.step) (hmm : r.min ≤ r.max)
    (current : Int) (carry : Bool) :
    (current + b2i carry ≤ r.min → r.next_value current carry = .ok (false, r.min)) ∧
    (r.min < current + b2i carry →
      ∃ g, r.isLeastGridGE (current + b2i carry) g ∧
        (r.max < g → r.next_value current carry = .ok (true, r.min)) ∧
        (g ≤ r.max → r.next_value current carry = .ok (false, g))) := by
  have hs0 : r.step ≠ 0 := by omega
  constructor
  · intro h
    simp only [Range.next_value, if_neg hs0]
    rw [if_pos h]
  · intro h
    refine ⟨_, least_grid r hs h, ?_, ?_⟩
    · intro hgt
      simp only [Range.next_value, if_neg hs0]
      rw [if_neg (by omega), if_pos hgt]
    · intro hle
      simp only [Range.next_value, if_neg hs0]
      rw [if_neg (by omega), if_neg (by omega)]

/-- Witness for C1 at `Range(5, 20, 11)`, `current = 17`, `carry = 1`
(the doctest `Range(5, 20, 11).next_value(17) == (True, 5)`). -/
theorem range_next_value_three_cases_witness :
    ((17 : Int) + b2i true ≤ 5 →
      (Range.mk 5 20 11).next_value 17 true = .ok (false, 5)) ∧
    ((5 : Int) < 17 + b2i true →
      ∃ g, (Range.mk 5 20 11).isLeastGridGE (17 + b2i true) g ∧
        ((20 : Int) < g → (Range.mk 5 20 11).next_value 17 true = .ok (true, 5)) ∧
        (g ≤ 20 → (Range.mk 5 20 11).next_value 17 true = .ok (false, g))) :=
  range_next_value_three_cases ⟨5, 20, 11⟩ (by decide) (by decide) 17 true

/-! ### Oracle equivalence (C2): `next_value` equals the linear scan -/

/-- `find?` over a strictly mapped index range with a monotone threshold
predicate: the first hit is the image of the threshold index. -/
theorem find_map_range'_threshold {α : Type} (f : Nat → α) (p : α → Bool) (t : Nat)
    (hp : ∀ k, p (f k) = true ↔ t ≤ k) :
    ∀ (n a : Nat), a ≤ t → ((List.range' a n).map f).find? p =
      if a + n ≤ t then none else some (f t) := by
  intro n
  induction n with
  | zero =>
    intro a ha
    rw [if_pos (by omega)]
    simp
  | succ m ih =>
    intro a ha
    rw [List.range'_succ, List.map_cons]
    by_cases hat : t ≤ a
    · have hta : a = t := by omega
      rw [List.find?_cons_of_pos _ ((hp a).2 hat), if_neg (by omega), hta]
    · rw [List.find?_cons_of_neg _ (by rw [hp a]; omega), ih (a + 1) (by omega)]
      by_cases hle : a + (m + 1) ≤ t
      · rw [if_pos (by omega), if_pos hle]
      · rw [if_neg (by omega), if_neg hle]

/-- C2: for every `Range` with `min ≤ max` and `step ≥ 1` and every integer
`current` and carry, the closed-form `Range.next_value` returns exactly the
same `(carry, value)` pair as the brute-force linear scan
`Range.validate` over `range(min, max+1, step)`. -/
theorem range_next_value_eq_validate (r : Range) (hs : 1 ≤ r.step) (hmm : r.min ≤ r.max)
    (current : Int) (carry : Bool) :
    r.next_value current carry = r.validate current carry := by
  have hb : (0 : Int) < r.step := by omega
  have hs0 : r.step ≠ 0 := by omega
  set c := current + b2i carry with hc
  set d := ceilDiv (c - r.min) r.step with hd
  set n := ceilDiv (r.max + 1 - r.min) r.step with hn
  have hn1 : 1 ≤ n := ceilDiv_pos hb (by omega)
  have hp : ∀ k : Nat, decide ((r.min + r.step * (k : Int)) ≥ c) = true ↔ d.toNat ≤ k := by
    intro k
    simp only [decide_eq_true_eq, ge_iff_le, Int.toNat_le]
    constructor
    · intro h
      exact ceilDiv_le hb (by omega)
    · intro h
      have h1 := le_mul_ceilDiv hb (a := c - r.min)
      have h2 := mul_le_mul_of_nonneg_left h hb.le
      linarith
  have hfind := find_map_range'_threshold (fun k : Nat => r.min + r.step * (k : Int))
      (fun i => decide (i ≥ c)) d.toNat (fun k => hp k) n.toNat 0 (Nat.zero_le _)
  have hglist : r.gridList
      = (List.range' 0 n.toNat).map (fun (k : Nat) => r.min + r.step * (k : Int)) := by
    rw [Range.gridList, List.range_eq_range']
  simp only [Nat.zero_add] at hfind
  unfold Range.validate Range.next_value
  rw [hglist]
  simp only [if_neg hs0, ← hc, hfind]
  rcases lt_trichotomy c r.min with hlt | heq | hgt
  · rw [if_pos (by omega), if_pos (by omega)]
  · have hd0 : d = 0 := by rw [hd, ← heq, sub_self, ceilDiv_zero_left]
    rw [if_pos (by omega), if_neg (by omega), if_neg (show ¬n.toNat ≤ d.toNat by omega)]
    rw [hd0]
    simp
  · have hd1 : 1 ≤ d := by
      rw [hd]
      exact ceilDiv_pos hb (by omega)
    have hstep : c - r.min ≤ r.step * d ∧
        (∀ k : Int, d ≤ k → r.step * d ≤ r.step * k) := by
      refine ⟨by rw [hd]; exact le_mul_ceilDiv hb, fun k hk => ?_⟩
      exact mul_le_mul_of_nonneg_left hk hb.le
    have hdn : n.toNat ≤ d.toNat ↔ r.max < r.min + r.step * d := by
      rw [Int.toNat_le, Int.toNat_of_nonneg (by omega)]
      constructor
      · intro h
        have h2 := (ceilDiv_le_iff hb (a := r.max + 1 - r.min) (k := d)).1 (by rw [← hn]; omega)
        linarith
      · intro h
        rw [hn]
        exact ceilDiv_le hb (by linarith)
    rw [if_neg (by omega)]
    by_cases hcase : r.min + r.step * d > r.max
    · rw [if_pos hcase, if_pos (hdn.2 hcase), if_neg (show ¬c < r.min by omega)]
    · rw [if_neg hcase, if_neg (show ¬n.toNat ≤ d.toNat by rw [hdn]; omega)]
      rw [if_neg (by omega), Int.toNat_of_nonneg (by omega)]

/-- Witness for C2 at `Range(29, 60, 29)`, `current = 3`, `carry = 1`
(the doctest `Range(29, 60, 29).next_value(3) == (False, 29)`). -/
theorem range_next_value_eq_validate_witness :
    (Range.mk 29 60 29).next_value 3 true = (Range.mk 29 60 29).validate 3 true :=
  range_next_value_eq_validate ⟨29, 60, 29⟩ (by decide) (by decide) 3 true

/-! ### `Set.next_value` is the lexicographic minimum (C3) -/

theorem carryLexLe_refl (a : Bool × Int) : carryLexLe a a := Or.inr ⟨rfl, le_rfl⟩

theorem carryLexLe_trans {a b c : Bool × Int}
    (h1 : carryLexLe a b) (h2 : carryLexLe b c) : carryLexLe a c := by
  rcases a with ⟨x, i⟩
  rcases b with ⟨y, j⟩
  rcases c with ⟨z, k⟩
  rcases h1 with ⟨h1a, h1b⟩ | ⟨h1a, h1b⟩ <;> rcases h2 with ⟨h2a, h2b⟩ | ⟨h2a, h2b⟩ <;>
    simp_all [carryLexLe] <;> omega

theorem pairMin_eq_or (a b : Bool × Int) : pairMin a b = a ∨ pairMin a b = b := by
  unfold pairMin
  split
  · right
    rfl
  · left
    rfl

theorem pairMin_le_left (a b : Bool × Int) : carryLexLe (pairMin a b) a := by
  rcases a with ⟨x, i⟩
  rcases b with ⟨y, j⟩
  unfold pairMin pairLt carryLexLe
  cases x <;> cases y <;> simp <;> split_ifs <;> simp_all <;> omega

theorem pairMin_le_right (a b : Bool × Int) : carryLexLe (pairMin a b) b := by
  rcases a with ⟨x, i⟩
  rcases b with ⟨y, j⟩
  unfold pairMin pairLt carryLexLe
  cases x <;> cases y <;> simp <;> split_ifs <;> simp_all <;> omega

theorem foldl_pairMin_spec (l : List (Bool × Int)) :
    ∀ v : Bool × Int, (l.foldl pairMin v = v ∨ l.foldl pairMin v ∈ l) ∧
      carryLexLe (l.foldl pairMin v) v ∧ ∀ x ∈ l, carryLexLe (l.foldl pairMin v) x := by
  induction l with
  | nil =>
    intro v
    simpa using carryLexLe_refl v
  | cons x xs ih =>
    intro v
    simp only [List.foldl_cons]
    obtain ⟨hmem, hv, hall⟩ := ih (pairMin v x)
    refine ⟨?_, ?_, ?_⟩
    · rcases hmem with h | h
      · rcases pairMin_eq_or v x with h2 | h2
        · left
          rw [h, h2]
        · right
          rw [h, h2]
          exact List.mem_cons_self x xs
      · right
        exact List.mem_cons_of_mem x h
    · exact carryLexLe_trans hv (pairMin_le_left v x)
    · intro y hy
      rcases List.mem_cons.1 hy with rfl | hy'
      · exact carryLexLe_trans hv (pairMin_le_right v y)
      · exact hall y hy'

theorem except_bind_ok {ε α β : Type} (x : Except ε α) (f : α → Except ε β) {b : β}
    (h : (x >>= f) = .ok b) : ∃ a, x = .ok a ∧ f a = .ok b := by
  cases x with
  | ok a => exact ⟨a, rfl, h⟩
  | error e =>
    simp only [Bind.bind, Except.bind] at h
    exact absurd h (by simp)

theorem ok_bind {ε α β : Type} (x : α) (f : α → Except ε β) :
    (Except.ok x >>= f : Except ε β) = f x := rfl

theorem error_bind {ε α β : Type} (e : ε) (f : α → Except ε β) :
    (Except.error e >>= f : Except ε β) = .error e := rfl

theorem mapM_ok_spec {α β : Type} (f : α → Except PyErr β) :
    ∀ (l : List α) (vals : List β), l.mapM f = .ok vals →
      (∀ a ∈ l, ∃ y, f a = .ok y ∧ y ∈ vals) ∧
      (∀ y ∈ vals, ∃ a, a ∈ l ∧ f a = .ok y) := by
  intro l
  induction l with
  | nil =>
    intro vals h
    rw [List.mapM_nil] at h
    have : vals = [] := by
      simpa [pure, Except.pure] using h.symm
    subst this
    simp
  | cons a l ih =>
    intro vals h
    rw [List.mapM_cons] at h
    obtain ⟨y, hy, h2⟩ := except_bind_ok _ _ h
    obtain ⟨ys, hys, h3⟩ := except_bind_ok _ _ h2
    have hcons : vals = y :: ys := by
      simpa [pure, Except.pure] using h3.symm
    subst hcons
    obtain ⟨H1, H2⟩ := ih ys hys
    constructor
    · intro a' ha'
      rcases List.mem_cons.1 ha' with rfl | ha2
      · exact ⟨y, hy, List.mem_cons_self y ys⟩
      · obtain ⟨z, hz, hzm⟩ := H1 a' ha2
        exact ⟨z, hz, List.mem_cons_of_mem y hzm⟩
    · intro y' hy'
      rcases List.mem_cons.1 hy' with rfl | hy2
      · exact ⟨a, List.mem_cons_self a l, hy⟩
      · obtain ⟨a', ha', haf⟩ := H2 y' hy2
        exact ⟨a', List.mem_cons_of_mem a ha', haf⟩

/-- C3: whenever `Set.next_value` produces a `(carry, value)` pair, that
pair is one of the member `Range`s' `next_value` results and is a
`carryLexLe` lower bound of all of them — i.e. it is the lexicographically
smallest result, the carry component ordered before the value component. -/
theorem set_next_value_lex_min (s : Set) (current : Int) (carry : Bool)
    (res : Bool × Int) (h : s.next_value current carry = .ok res) :
    (∃ r, r ∈ s.ranges ∧ r.next_value current carry = .ok res) ∧
    (∀ r, r ∈ s.ranges → ∃ y, r.next_value current carry = .ok y ∧ carryLexLe res y) := by
  unfold Set.next_value at h
  obtain ⟨vals, hvals, h2⟩ := except_bind_ok _ _ h
  obtain ⟨Hfwd, Hbwd⟩ := mapM_ok_spec _ _ _ hvals
  cases vals with
  | nil => exact absurd h2 (by simp)
  | cons v rest =>
    have hres : res = rest.foldl pairMin v := by
      simpa using h2.symm
    obtain ⟨hmem, hv, hall⟩ := foldl_pairMin_spec rest v
    have hresmem : res ∈ v :: rest := by
      rcases hmem with hm | hm
      · rw [hres, hm]
        exact List.mem_cons_self v rest
      · rw [hres]
        exact List.mem_cons_of_mem v hm
    have hlow : ∀ x ∈ v :: rest, carryLexLe res x := by
      intro x hx
      rcases List.mem_cons.1 hx with rfl | hx'
      · rw [hres]
        exact hv
      · rw [hres]
        exact hall x hx'
    constructor
    · obtain ⟨r, hr, hfr⟩ := Hbwd res hresmem
      exact ⟨r, hr, hfr⟩
    · intro r hr
      obtain ⟨y, hy, hym⟩ := Hfwd r hr
      exact ⟨y, hy, hlow y hym⟩

/-- Witness for C3 at `Set((Range(1, 4), Range(3, 7)))`, `current = 8`
(the doctest `Set((Range(1, 4), Range(3, 7))).next_value(8) == (True, 1)`). -/
theorem set_next_value_lex_min_witness :
    (∃ r, r ∈ (Set.mk [⟨1, 4, 1⟩, ⟨3, 7, 1⟩]).ranges ∧
      r.next_value 8 true = .ok (true, 1)) ∧
    (∀ r, r ∈ (Set.mk [⟨1, 4, 1⟩, ⟨3, 7, 1⟩]).ranges →
      ∃ y, r.next_value 8 true = .ok y ∧ carryLexLe (true, 1) y) :=
  set_next_value_lex_min (Set.mk [⟨1, 4, 1⟩, ⟨3, 7, 1⟩]) 8 true (true, 1) (by decide)

/-! ### The DOM/DOW disjunction (C5) -/

/-- C5: whenever the DOM-path and DOW-path timestamps both exist,
`Job.next_value` returns their earlier (minimum) when both day fields are
restricted, the DOW-path result alone when only day-of-week is restricted,
and the DOM-path result alone in every other case. -/
theorem job_next_value_disjunction (j : Job) (dt : DateTime) (a b : DateTime)
    (ha : j.domPath dt = .ok a) (hb : j.dowPath dt = .ok b) :
    (j.dom_specified = true → j.dow_specified = true →
      j.next_value dt = .ok (dtMin a b)) ∧
    (j.dom_specified = false → j.dow_specified = true → j.next_value dt = .ok b) ∧
    (j.dow_specified = false → j.next_value dt = .ok a) := by
  unfold Job.domPath at ha
  unfold Job.dowPath at hb
  unfold Job.next_value
  cases hfmh : j.find_minute_hour {dt with second := 0} true with
  | error e =>
    rw [hfmh, error_bind] at ha
    exact absurd ha (by simp)
  | ok p =>
    obtain ⟨hc, time⟩ := p
    rw [hfmh] at ha hb
    simp only [ok_bind] at ha hb ⊢
    cases hdom : j.find_dom_month_year time hc with
    | error e =>
      rw [hdom, error_bind] at ha
      exact absurd ha (by simp)
    | ok q =>
      obtain ⟨domHigh, domD⟩ := q
      rw [hdom] at ha
      simp only [ok_bind] at ha ⊢
      cases hdow : j.find_dow_month_year time hc with
      | error e =>
        rw [hdow, error_bind] at hb
        exact absurd hb (by simp)
      | ok w =>
        obtain ⟨dowHigh, dowD⟩ := w
        rw [hdow] at hb
        simp only [ok_bind] at hb ⊢
        rw [ha]
        simp only [ok_bind]
        rw [hb]
        simp only [ok_bind]
        refine ⟨?_, ?_, ?_⟩
        · intro h1 h2
          rw [h1, h2]
          simp
        · intro h1 h2
          rw [h1, h2]
          simp
        · intro h1
          rw [h1]
          simp

/-- Witness for C5 at the job `"* * 15 * 3 true"` and
now = 2014-11-07 17:04:49: the DOM path gives 2014-11-15 17:05, the DOW
path gives 2014-11-12 00:00, and `next_value` takes their minimum. -/
theorem job_next_value_disjunction_witness :
    (jBoth.dom_specified = true → jBoth.dow_specified = true →
      jBoth.next_value ⟨2014, 11, 7, 17, 4, 49, 0⟩ =
        .ok (dtMin ⟨2014, 11, 15, 17, 5, 0, 0⟩ ⟨2014, 11, 12, 0, 0, 0, 0⟩)) ∧
    (jBoth.dom_specified = false → jBoth.dow_specified = true →
      jBoth.next_value ⟨2014, 11, 7, 17, 4, 49, 0⟩ = .ok ⟨2014, 11, 12, 0, 0, 0, 0⟩) ∧
    (jBoth.dow_specified = false →
      jBoth.next_value ⟨2014, 11, 7, 17, 4, 49, 0⟩ = .ok ⟨2014, 11, 15, 17, 5, 0, 0⟩) :=
  job_next_value_disjunction jBoth ⟨2014, 11, 7, 17, 4, 49, 0⟩
    ⟨2014, 11, 15, 17, 5, 0, 0⟩ ⟨2014, 11, 12, 0, 0, 0, 0⟩ (by decide) (by decide)

/-! ### Unschedulable jobs (C6) -/

theorem mkDateTime_of_dateValid_false {y m d h mi s us : Int}
    (h0 : dateValid y m d = false) : mkDateTime y m d h mi s us = none := by
  unfold mkDateTime
  rw [h0]
  rfl

/-- C6: a job whose day-of-month and month sets can only ever produce
value combinations that never form a valid calendar date (and whose sets
always answer) makes `Job.next_value` exhaust the bounded 100-iteration
retry loop and return the distinct "no valid time found" error rather than
a timestamp. -/
theorem job_unschedulable (j : Job) (dt0 : DateTime) (hc : Bool) (time : DateTime)
    (hfmh : j.find_minute_hour {dt0 with second := 0} true = .ok (hc, time))
    (hdoms : ∀ (cur : Int) (cb : Bool), ∃ p, j.doms.next_value cur cb = .ok p)
    (hmonths : ∀ (cur : Int) (cb : Bool), ∃ q, j.months.next_value cur cb = .ok q)
    (hbad : ∀ (cur : Int) (cb : Bool) (p : Bool × Int), j.doms.next_value cur cb = .ok p →
      ∀ (cur2 : Int) (cb2 : Bool) (q : Bool × Int), j.months.next_value cur2 cb2 = .ok q →
      ∀ (y : Int), dateValid y q.2 p.2 = false) :
    j.next_value dt0 = .error (.valueError "Couldn't find a valid time for the cron job") := by
  have loop : ∀ (n : Nat) (dom month year : Int),
      j.find_dom_month_year_loop time hc n dom month year =
        .error (.valueError "Couldn't find a valid time for the cron job") := by
    intro n
    induction n with
    | zero =>
      intro dom month year
      rfl
    | succ m ih =>
      intro dom month year
      obtain ⟨p, hp⟩ := hdoms dom hc
      obtain ⟨pc, pv⟩ := p
      obtain ⟨q, hq⟩ := hmonths month pc
      obtain ⟨qc, qv⟩ := q
      rw [Job.find_dom_month_year_loop, hp]
      simp only [ok_bind]
      rw [hq]
      simp only [ok_bind]
      cases qc with
      | false =>
        simp only [Bool.false_eq_true, if_false, pure, Except.pure, ok_bind]
        rw [mkDateTime_of_dateValid_false (hbad dom hc (pc, pv) hp month pc (false, qv) hq _)]
        exact ih pv qv (year + b2i false)
      | true =>
        simp only [if_true]
        obtain ⟨p2, hp2⟩ := hdoms 0 false
        obtain ⟨p2c, p2v⟩ := p2
        rw [hp2]
        simp only [ok_bind]
        rw [mkDateTime_of_dateValid_false (hbad 0 false (p2c, p2v) hp2 month pc (true, qv) hq _)]
        exact ih p2v qv (year + b2i true)
  unfold Job.next_value
  rw [hfmh]
  simp only [ok_bind]
  unfold Job.find_dom_month_year
  rw [loop 100 time.day time.month time.year]
  rfl

theorem set_singleton_next_value (r : Range) (cur : Int) (cb : Bool) :
    (Set.mk [r]).next_value cur cb = r.next_value cur cb := by
  unfold Set.next_value
  cases h : r.next_value cur cb with
  | error e =>
    rw [List.mapM_cons, h]
    rfl
  | ok p =>
    rw [List.mapM_cons, h]
    rfl

theorem range_next_value_ok (r : Range) (hs : r.step ≠ 0) (cur : Int) (cb : Bool) :
    ∃ p, r.next_value cur cb = .ok p := by
  unfold Range.next_value
  rw [if_neg hs]
  dsimp only
  split_ifs <;> exact ⟨_, rfl⟩

theorem range_singleton_only_value (m cur : Int) (cb : Bool) (p : Bool × Int)
    (h : (Range.mk m m 1).next_value cur cb = .ok p) : p.2 = m := by
  unfold Range.next_value at h
  rw [if_neg (by norm_num)] at h
  simp only [ceilDiv, Int.fdiv_one] at h
  split_ifs at h with h1 h2
  · cases h
    rfl
  · cases h
    rfl
  · exfalso
    simp only [neg_neg] at h2
    omega

theorem dateValid_feb_31 (y d : Int) (hd : 31 ≤ d) : dateValid y 2 d = false := by
  unfold dateValid daysInMonth
  cases h : isLeap y <;> simp [h] <;> omega

/-- Witness for C6: the job `"* * 31 2 * true"` (day-of-month 31 in
February) makes `next_value` return the "no valid time found" error. -/
theorem job_unschedulable_witness :
    jFeb31.next_value ⟨2014, 1, 1, 0, 0, 0, 0⟩ =
      .error (.valueError "Couldn't find a valid time for the cron job") :=
  job_unschedulable jFeb31 ⟨2014, 1, 1, 0, 0, 0, 0⟩ false ⟨2014, 1, 1, 0, 1, 0, 0⟩
    (by decide)
    (fun cur cb => by
      rw [show jFeb31.doms = Set.mk [⟨31, 31, 1⟩] from rfl, set_singleton_next_value]
      exact range_next_value_ok _ (by decide) cur cb)
    (fun cur cb => by
      rw [show jFeb31.months = Set.mk [⟨2, 2, 1⟩] from rfl, set_singleton_next_value]
      exact range_next_value_ok _ (by decide) cur cb)
    (fun cur cb p hp cur2 cb2 q hq y => by
      rw [show jFeb31.doms = Set.mk [⟨31, 31, 1⟩] from rfl, set_singleton_next_value] at hp
      rw [show jFeb31.months = Set.mk [⟨2, 2, 1⟩] from rfl, set_singleton_next_value] at hq
      have h1 := range_singleton_only_value 31 cur cb p hp
      have h2 := range_singleton_only_value 2 cur2 cb2 q hq
      rw [h1, h2]
      exact dateValid_feb_31 y 31 le_rfl)

/-! ### Second truncation and microsecond preservation (C8) -/

theorem mkDateTime_some {y m d h mi s us : Int} {dt : DateTime}
    (hmk : mkDateTime y m d h mi s us = some dt) : dt = ⟨y, m, d, h, mi, s, us⟩ := by
  unfold mkDateTime at hmk
  split_ifs at hmk
  exact (Option.some_inj.1 hmk).symm

theorem except_map_snd_ok {ε α β : Type} {x : Except ε (α × β)} {v : β}
    (h : x.map Prod.snd = .ok v) : ∃ pr, x = .ok pr ∧ pr.2 = v := by
  cases x with
  | ok p =>
    refine ⟨p, rfl, ?_⟩
    simpa [Except.map] using h
  | error e => exact absurd h (by simp [Except.map])

theorem dtMin_eq_or (a b : DateTime) : dtMin a b = a ∨ dtMin a b = b := by
  unfold dtMin
  split
  · right
    rfl
  · left
    rfl

theorem find_minute_hour_fields {j : Job} {dt : DateTime} {mc c : Bool} {dt' : DateTime}
    (h : j.find_minute_hour dt mc = .ok (c, dt')) :
    dt'.second = dt.second ∧ dt'.microsecond = dt.microsecond := by
  unfold Job.find_minute_hour at h
  obtain ⟨p, hp, h2⟩ := except_bind_ok _ _ h
  obtain ⟨a1, a2⟩ := p
  obtain ⟨q, hq, h3⟩ := except_bind_ok _ _ h2
  obtain ⟨b1, b2⟩ := q
  obtain ⟨nm, hnm, h4⟩ := except_bind_ok _ _ h3
  cases hmk : mkDateTime dt.year dt.month dt.day b2 nm dt.second dt.microsecond with
  | none =>
    rw [hmk] at h4
    exact absurd h4 (by simp)
  | some dt2 =>
    rw [hmk] at h4
    have h5 : b1 = c ∧ dt2 = dt' := by simpa using h4
    rw [← h5.2, mkDateTime_some hmk]
    exact ⟨rfl, rfl⟩

theorem find_dom_month_year_loop_fields {j : Job} {dt : DateTime} {hc : Bool} :
    ∀ (n : Nat) (dom month year : Int) (c : Bool) (dt' : DateTime),
      j.find_dom_month_year_loop dt hc n dom month year = .ok (c, dt') →
      dt'.second = dt.second ∧ dt'.microsecond = dt.microsecond := by
  intro n
  induction n with
  | zero =>
    intro dom month year c dt' h
    exact absurd h (by simp [Job.find_dom_month_year_loop])
  | succ m ih =>
    intro dom month year c dt' h
    rw [Job.find_dom_month_year_loop] at h
    obtain ⟨p, hp, h2⟩ := except_bind_ok _ _ h
    obtain ⟨p1, p2⟩ := p
    obtain ⟨q, hq, h3⟩ := except_bind_ok _ _ h2
    obtain ⟨q1, q2⟩ := q
    obtain ⟨w, hw, h4⟩ := except_bind_ok _ _ h3
    obtain ⟨w1, w2⟩ := w
    simp only at h4
    cases hmk : mkDateTime (year + b2i q1) q2 w2 dt.hour dt.minute dt.second dt.microsecond with
    | none =>
      rw [hmk] at h4
      exact ih w2 q2 (year + b2i q1) c dt' h4
    | some dt2 =>
      rw [hmk] at h4
      have h5 : (w1 || q1) = c ∧ dt2 = dt' := by simpa using h4
      rw [← h5.2, mkDateTime_some hmk]
      exact ⟨rfl, rfl⟩

theorem find_dom_month_year_fields {j : Job} {dt : DateTime} {hc c : Bool} {dt' : DateTime}
    (h : j.find_dom_month_year dt hc = .ok (c, dt')) :
    dt'.second = dt.second ∧ dt'.microsecond = dt.microsecond :=
  find_dom_month_year_loop_fields 100 dt.day dt.month dt.year c dt' h

theorem addDaysNat_fields : ∀ (n : Nat) (dt dt' : DateTime),
    addDaysNat dt n = .ok dt' →
    dt'.second = dt.second ∧ dt'.microsecond = dt.microsecond := by
  intro n
  induction n with
  | zero =>
    intro dt dt' h
    have h2 : dt = dt' := by simpa [addDaysNat] using h
    rw [← h2]
    exact ⟨rfl, rfl⟩
  | succ m ih =>
    intro dt dt' h
    rw [addDaysNat] at h
    split_ifs at h
    · exact ⟨(ih _ _ h).1, (ih _ _ h).2⟩
    · exact ⟨(ih _ _ h).1, (ih _ _ h).2⟩
    · exact ⟨(ih _ _ h).1, (ih _ _ h).2⟩

theorem addDays_fields {dt : DateTime} {n : Int} {dt' : DateTime}
    (h : dt.addDays n = .ok dt') :
    dt'.second = dt.second ∧ dt'.microsecond = dt.microsecond :=
  addDaysNat_fields n.toNat dt dt' h

theorem find_dow_month_year_fields {j : Job} {dt : DateTime} {hc c : Bool} {dt' : DateTime}
    (h : j.find_dow_month_year dt hc = .ok (c, dt')) :
    dt'.second = dt.second ∧ dt'.microsecond = dt.microsecond := by
  unfold Job.find_dow_month_year at h
  obtain ⟨p, hp, h2⟩ := except_bind_ok _ _ h
  obtain ⟨p1, p2⟩ := p
  obtain ⟨q, hq, h3⟩ := except_bind_ok _ _ h2
  obtain ⟨q1, q2⟩ := q
  obtain ⟨dtP, hdtP, h4⟩ := except_bind_ok _ _ h3
  split_ifs at h4
  · have h5 : p1 = c ∧ dtP = dt' := by simpa using h4
    rw [← h5.2]
    exact addDays_fields hdtP
  · obtain ⟨r, hr, h5⟩ := except_bind_ok _ _ h4
    obtain ⟨r1, r2⟩ := r
    obtain ⟨dt2, hdt2, h6⟩ := except_bind_ok _ _ h5
    have hdt2' : mkDateTime (dt.year + b2i r1) r2 1 dt.hour dt.minute dt.second dt.microsecond
        = some dt2 := by
      cases hmk : mkDateTime (dt.year + b2i r1) r2 1 dt.hour dt.minute dt.second dt.microsecond with
      | none =>
        rw [hmk] at hdt2
        exact absurd hdt2 (by simp)
      | some d =>
        rw [hmk] at hdt2
        have : d = dt2 := by simpa using hdt2
        rw [← this]
    obtain ⟨s, hs, h7⟩ := except_bind_ok _ _ h6
    obtain ⟨s1, s2⟩ := s
    obtain ⟨dtF, hdtF, h8⟩ := except_bind_ok _ _ h7
    have h9 : True = c ∧ dtF = dt' := by simpa using h8
    rw [← h9.2]
    have hF := addDays_fields hdtF
    rw [mkDateTime_some hdt2'] at hF
    exact hF

/-- C8 amended: `Job.next_value` zeroes the seconds of `now` before
computing and every returned timestamp has second 0 — but the microsecond
of `now` is preserved in the result, not zeroed. -/
theorem job_next_value_truncation (j : Job) (dt0 : DateTime) (res : DateTime)
    (h : j.next_value dt0 = .ok res) :
    res.second = 0 ∧ res.microsecond = dt0.microsecond := by
  unfold Job.next_value at h
  obtain ⟨p, hp, h2⟩ := except_bind_ok _ _ h
  obtain ⟨hc, time⟩ := p
  have htime := find_minute_hour_fields hp
  simp only at htime
  obtain ⟨q, hq, h3⟩ := except_bind_ok _ _ h2
  obtain ⟨dh, domD⟩ := q
  have hdomD := find_dom_month_year_fields hq
  obtain ⟨w, hw, h4⟩ := except_bind_ok _ _ h3
  obtain ⟨wh, dowD⟩ := w
  have hdowD := find_dow_month_year_fields hw
  obtain ⟨dom_dt, hdom_dt, h5⟩ := except_bind_ok _ _ h4
  obtain ⟨dow_dt, hdow_dt, h6⟩ := except_bind_ok _ _ h5
  have hdomF : dom_dt.second = domD.second ∧ dom_dt.microsecond = domD.microsecond := by
    split_ifs at hdom_dt
    · obtain ⟨pr, hpr, hpr2⟩ := except_map_snd_ok hdom_dt
      obtain ⟨c2, d2⟩ := pr
      have := find_minute_hour_fields hpr
      rw [← hpr2]
      exact this
    · have : domD = dom_dt := by simpa [pure, Except.pure] using hdom_dt
      rw [← this]
      exact ⟨rfl, rfl⟩
  have hdowF : dow_dt.second = dowD.second ∧ dow_dt.microsecond = dowD.microsecond := by
    split_ifs at hdow_dt
    · obtain ⟨pr, hpr, hpr2⟩ := except_map_snd_ok hdow_dt
      obtain ⟨c2, d2⟩ := pr
      have := find_minute_hour_fields hpr
      rw [← hpr2]
      exact this
    · have : dowD = dow_dt := by simpa [pure, Except.pure] using hdow_dt
      rw [← this]
      exact ⟨rfl, rfl⟩
  have hres : res = dtMin dom_dt dow_dt ∨ res = dow_dt ∨ res = dom_dt := by
    split_ifs at h6 with hf1 hf2
    · left
      simpa using h6.symm
    · right
      left
      simpa using h6.symm
    · right
      right
      simpa using h6.symm
  have hdomA : dom_dt.second = 0 ∧ dom_dt.microsecond = dt0.microsecond := by
    rw [hdomF.1, hdomF.2, hdomD.1, hdomD.2, htime.1, htime.2]
    exact ⟨rfl, rfl⟩
  have hdowA : dow_dt.second = 0 ∧ dow_dt.microsecond = dt0.microsecond := by
    rw [hdowF.1, hdowF.2, hdowD.1, hdowD.2, htime.1, htime.2]
    exact ⟨rfl, rfl⟩
  rcases hres with hr | hr | hr
  · rcases dtMin_eq_or dom_dt dow_dt with hm | hm
    · rw [hr, hm]
      exact hdomA
    · rw [hr, hm]
      exact hdowA
  · rw [hr]
    exact hdowA
  · rw [hr]
    exact hdomA

/-- Witness for the amended C8 at the job `"* * * * * true"` and
now = 2014-11-15 17:04:49.000001. -/
theorem job_next_value_truncation_witness :
    jStar.next_value ⟨2014, 11, 15, 17, 4, 49, 1⟩ = .ok ⟨2014, 11, 15, 17, 5, 0, 1⟩ ∧
    ((⟨2014, 11, 15, 17, 5, 0, 1⟩ : DateTime).second = 0 ∧
      (⟨2014, 11, 15, 17, 5, 0, 1⟩ : DateTime).microsecond =
        (⟨2014, 11, 15, 17, 4, 49, 1⟩ : DateTime).microsecond) :=
  ⟨by decide,
    job_next_value_truncation jStar ⟨2014, 11, 15, 17, 4, 49, 1⟩
      ⟨2014, 11, 15, 17, 5, 0, 1⟩ (by decide)⟩

/-- C8 counterexample: with now = 2014-11-15 17:04:49.000001 the job
`"* * * * * true"` returns a timestamp whose microsecond is 1, not 0 — the
result is not truncated below the second. -/
theorem job_next_value_microsecond_counterexample :
    jStar.next_value ⟨2014, 11, 15, 17, 4, 49, 1⟩ = .ok ⟨2014, 11, 15, 17, 5, 0, 1⟩ ∧
    (⟨2014, 11, 15, 17, 5, 0, 1⟩ : DateTime).microsecond ≠ 0 := by decide

/-! ### Concrete end-to-end and parser behaviors (C4, C7, C9, C10) -/

set_option maxRecDepth 8000 in
/-- C4: parsing the job line `"* * 29 2 * true"` and computing its next run
after 2196-02-29 23:59:00 yields exactly 2204-02-29 00:00:00 — the bounded
retry loop skips the 2200 century non-leap year (an 8-year gap) to the next
valid Feb 29. -/
theorem feb29_century_skip :
    parse_job "* * 29 2 * true" = .ok jFeb ∧
    jFeb.next_value ⟨2196, 2, 29, 23, 59, 0, 0⟩ = .ok ⟨2204, 2, 29, 0, 0, 0, 0⟩ :=
  ⟨by decide, by decide⟩

/-- C7 evaluated at its failing inputs: `parse_range` accepts step `0`
(only `step < 0` is rejected), and a non-numeric step escapes as a plain
`ValueError` because `except IndexError or ValueError` only catches
`IndexError`; a negative step and more than one `/` do raise
`CronSyntaxError("Invalid Field")`. -/
theorem parse_range_step_slips :
    parse_range "*/0" (0, 59) = .ok ⟨0, 59, 0⟩ ∧
    parse_range "1-4/x" (0, 59) = .error (.valueError "invalid literal for int() with base 10") ∧
    parse_range "*/-2" (0, 59) = .error (.cronSyntax "Invalid Field" "*/-2") ∧
    parse_range "1-4/3/5" (0, 59) = .error (.cronSyntax "Invalid Field" "1-4/3/5") := by decide

/-- C9: a zero step is accepted by the parser — `parse_range("*/0")` returns
`Range(0, 59, 0)` — and `next_value` on such a `Range` divides by the step,
so a `ZeroDivisionError` is reachable through the public parse-then-query
interface. -/
theorem zero_step_reaches_division_by_zero :
    parse_range "*/0" (0, 59) = .ok ⟨0, 59, 0⟩ ∧
    (∀ (current : Int) (carry : Bool),
      (Range.mk 0 59 0).next_value current carry = .error .zeroDivisionError) ∧
    parse_job "*/0 * * * * true" = .ok jZero ∧
    jZero.next_value ⟨2014, 1, 1, 0, 0, 0, 0⟩ = .error .zeroDivisionError :=
  ⟨by decide, fun current carry => rfl, by decide, by decide⟩

/-- C10 counterexample: the four-field line `"* * * *"` — fewer than five
time fields — is *not* reported through the `CronSyntaxError("Invalid job")`
path: its fields parse cleanly and `line[5]` raises an uncaught
`IndexError`. -/
theorem parse_job_four_fields_counterexample :
    parse_job "* * * *" = .error .indexError ∧
    PyErr.indexError ≠ .cronSyntax "Invalid job" "* * * *" := by decide

/-- C10 amended: a five-field line with no command builds all five `Set`s
and then fails with an uncaught `IndexError` at `line[5]`; a clean line
with fewer than five fields fails with the same uncaught `IndexError`, and
the `CronSyntaxError("Invalid job")` path fires only when a `ValueError`
escapes field parsing (e.g. a non-numeric step). -/
theorem parse_job_index_error_paths :
    ((pyFields "* * * * *").zip STAR_RANGES).mapM (fun fr => parse_set fr.1 fr.2)
      = .ok starSets ∧
    parse_job "* * * * *" = .error .indexError ∧
    parse_job "* * * *" = .error .indexError ∧
    parse_job "1-4/x * * * * cmd" = .error (.cronSyntax "Invalid job" "1-4/x * * * * cmd") := by
  decide

end Crontab
